import Mathlib

/-!
Shallow embedding of the swh-perfecthash shard file engine
(src/swh/perfecthash/hash.c) and proofs of the specification claims.

The on-disk file is modelled as a list of bytes (`List Nat`, each < 256 in
practice) together with a file position.  Write failures of the underlying
`fwrite` are modelled by an oracle `wOk : List Bool`: each byte-level
`shard_write` call consumes one entry (an empty oracle means every write
succeeds), mirroring that in C any `fwrite` may fail and `shard_write`
returns -1 in that case.  `uint64_t` values are modelled as `Nat` and are
reduced mod 2^64 exactly where the code stores them on disk via `htonq`.
-/

/-- Modelled from the spec: the header file hash.h of this repository is not
under src/ (only hash.c is), so its compile-time constants are taken from the
spec (§4.2, §6.1): the magic is a fixed byte string, the example given being
the six bytes of the C literal SHARD plus its terminating NUL. -/
def SHARD_MAGIC : List Nat := [83, 72, 65, 82, 68, 0]

/-- Modelled from the spec: the header starts right after the magic, so the
magic offset constant equals the magic length (spec §6.1: header at offset
two bars MAGIC two bars). -/
def SHARD_OFFSET_MAGIC : Nat := SHARD_MAGIC.length

/-- Modelled from the spec: the key width K is the compile-time constant
SHARD_KEY_LEN, typically 32 for SHA-256 (spec §6.1). -/
def SHARD_KEY_LEN : Nat := 32

/-- Modelled from the spec: current version is 1 (spec §3 invariant 6). -/
def SHARD_VERSION : Nat := 1

/-- Modelled from the spec: objects start at the first byte after the header,
which is exactly 7 u64 fields = 56 bytes (spec §6.1). -/
def SHARD_OFFSET_HEADER : Nat := SHARD_OFFSET_MAGIC + 7 * 8

/-- Largest offset accepted by shard_seek (C: INT64_MAX). -/
def INT64_MAX : Nat := 2 ^ 63 - 1

/-- Big-endian encoding of a 64-bit value, as written by htonq + fwrite on a
little-endian host (8 bytes, most significant first). -/
def be8 (v : Nat) : List Nat :=
  [v / 2 ^ 56 % 256, v / 2 ^ 48 % 256, v / 2 ^ 40 % 256, v / 2 ^ 32 % 256,
   v / 2 ^ 24 % 256, v / 2 ^ 16 % 256, v / 2 ^ 8 % 256, v % 256]

/-- Value of a big-endian byte string, as computed by ntohq after fread. -/
def beVal (l : List Nat) : Nat :=
  l.foldl (fun a b => a * 256 + b) 0

/-- A file: its byte contents, the current position, and the oracle of
outcomes for the remaining low-level writes. -/
structure FS where
  data : List Nat
  pos : Nat
  wOk : List Bool
deriving DecidableEq

/-- Zero-padding of a file up to length n, as the OS provides when writing
after a seek past the end of file. -/
def padTo (data : List Nat) (n : Nat) : List Nat :=
  data ++ List.replicate (n - data.length) 0

/-- Overwrite the bytes of data at position pos; a write of zero bytes
leaves the file untouched (fwrite with nmemb = 0 writes nothing). -/
def writeAt (data : List Nat) (pos : Nat) (bytes : List Nat) : List Nat :=
  if bytes.isEmpty then data
  else (padTo data pos).take pos ++ bytes ++ (padTo data pos).drop (pos + bytes.length)

/-- C shard_write: fwrite that fails when fewer bytes than requested were
written; the oracle decides the outcome, a zero-byte fwrite always succeeds. -/
def shard_write (f : FS) (bytes : List Nat) : Bool × FS :=
  if bytes.isEmpty then (true, f)
  else
    match f.wOk with
    | [] =>
        (true, { data := writeAt f.data f.pos bytes, pos := f.pos + bytes.length, wOk := [] })
    | ok :: rest =>
        if ok then
          (true, { data := writeAt f.data f.pos bytes, pos := f.pos + bytes.length, wOk := rest })
        else (false, { f with wOk := rest })

/-- C shard_read: fread that fails on a short read. -/
def shard_read (f : FS) (n : Nat) : Option (List Nat × FS) :=
  if f.pos + n ≤ f.data.length then
    some ((f.data.drop f.pos).take n, { f with pos := f.pos + n })
  else none

/-- C shard_seek with SEEK_SET (the only whence the engine uses): fails on
offsets above INT64_MAX. -/
def shard_seek (f : FS) (offset : Nat) : Option FS :=
  if offset ≤ INT64_MAX then some { f with pos := offset } else none

/-- C shard_tell. -/
def shard_tell (f : FS) : Nat := f.pos

/-- C shard_read_uint64_t: read 8 bytes and ntohq them. -/
def shard_read_uint64_t (f : FS) : Option (Nat × FS) :=
  match shard_read f 8 with
  | none => none
  | some (b, f1) => some (beVal b, f1)

/-- The shard header (C shard_header_t): seven uint64_t fields. -/
structure shard_header_t where
  version : Nat
  objects_count : Nat
  objects_position : Nat
  objects_size : Nat
  index_position : Nat
  index_size : Nat
  hash_position : Nat
deriving DecidableEq

/-- The seven header fields in their on-disk order. -/
def headerFields (h : shard_header_t) : List Nat :=
  [h.version, h.objects_count, h.objects_position, h.objects_size,
   h.index_position, h.index_size, h.hash_position]

/-- C shard_index_t: one staged key and the offset of its object record. -/
structure shard_index_t where
  key : List Nat
  object_offset : Nat
deriving DecidableEq

/-- The in-memory shard state of the C shard_t for a shard whose file is
open: the file, the header, the staged index with its write cursor, and the
cmph handle (`none` models the NULL pointer). -/
structure shard_t where
  fs : FS
  header : shard_header_t
  index : List shard_index_t
  index_offset : Nat
  hash : Option (List (List Nat))
deriving DecidableEq

/-- Error outcomes distinguished by which source check returned -1 (the C
functions all return -1 and print; nullDeref marks the undefined behavior of
dereferencing a NULL cmph handle, assertFail a failed C assert). -/
inductive Err where
  | ioError
  | badMagic
  | badVersion
  | nullDeref
  | assertFail
deriving DecidableEq

/-- C shard_magic_load: seek 0, read the magic bytes, memcmp against the
constant; the two read failures give ioError, the memcmp mismatch badMagic. -/
def shard_magic_load (f : FS) : Except Err FS :=
  match shard_seek f 0 with
  | none => Except.error Err.ioError
  | some f0 =>
    match shard_read f0 SHARD_MAGIC.length with
    | none => Except.error Err.ioError
    | some (magic, f1) =>
      if magic = SHARD_MAGIC then Except.ok f1 else Except.error Err.badMagic

/-- C shard_magic_save: seek 0 and write the magic constant. -/
def shard_magic_save (f : FS) : Option Err × FS :=
  match shard_seek f 0 with
  | none => (some Err.ioError, f)
  | some f0 =>
    match shard_write f0 SHARD_MAGIC with
    | (true, f1) => (none, f1)
    | (false, f1) => (some Err.ioError, f1)

/-- Write a list of uint64_t values one by one (the expansion of the SAVE
macro of shard_header_save), aborting at the first failed write. -/
def writeFields (f : FS) : List Nat → Option Err × FS
  | [] => (none, f)
  | v :: rest =>
    match shard_write f (be8 v) with
    | (true, f1) => writeFields f1 rest
    | (false, f1) => (some Err.ioError, f1)

/-- C shard_header_save: seek to SHARD_OFFSET_MAGIC and write the seven
header fields as consecutive big-endian uint64_t. -/
def shard_header_save (s : shard_t) : Option Err × shard_t :=
  match shard_seek s.fs SHARD_OFFSET_MAGIC with
  | none => (some Err.ioError, s)
  | some f0 =>
    match writeFields f0 (headerFields s.header) with
    | (e, f1) => (e, { s with fs := f1 })

/-- Read n consecutive big-endian uint64_t values. -/
def readU64s (f : FS) : Nat → Option (List Nat × FS)
  | 0 => some ([], f)
  | n + 1 =>
    match shard_read_uint64_t f with
    | none => none
    | some (v, f1) =>
      match readU64s f1 n with
      | none => none
      | some (vs, f2) => some (v :: vs, f2)

/-- C shard_header_load: seek to SHARD_OFFSET_MAGIC, read the seven fields
(the expansion of the LOAD macro), then check the version. -/
def shard_header_load (f : FS) : Except Err (shard_header_t × FS) :=
  match shard_seek f SHARD_OFFSET_MAGIC with
  | none => Except.error Err.ioError
  | some f0 =>
    match readU64s f0 7 with
    | none => Except.error Err.ioError
    | some ([v1, v2, v3, v4, v5, v6, v7], f1) =>
      let header : shard_header_t :=
        { version := v1, objects_count := v2, objects_position := v3,
          objects_size := v4, index_position := v5, index_size := v6,
          hash_position := v7 }
      if header.version = SHARD_VERSION then Except.ok (header, f1)
      else Except.error Err.badVersion
    | some (_, _) => Except.error Err.ioError

/-- C shard_header_reset: zero the header then set version and
objects_position. -/
def shard_header_reset : shard_header_t :=
  { version := SHARD_VERSION, objects_count := 0,
    objects_position := SHARD_OFFSET_HEADER, objects_size := 0,
    index_position := 0, index_size := 0, hash_position := 0 }

/-- C shard_create: open the file with mode w+ (truncating it), reset the
header, seek to SHARD_OFFSET_HEADER, record objects_count and allocate the
in-memory index (a list here).  The wOk oracle of the fresh file is a
parameter. -/
def shard_create (objects_count : Nat) (wOk : List Bool) : shard_t :=
  { fs := { data := [], pos := SHARD_OFFSET_HEADER, wOk := wOk },
    header := { shard_header_reset with objects_count := objects_count },
    index := [],
    index_offset := 0,
    hash := none }

/-- C shard_object_write: stage (key copy, tell) in the index, advance the
index cursor, then write the htonq object size followed by the object bytes.
The C memcpy copies exactly SHARD_KEY_LEN bytes of the key.  Note that the
index entry is recorded and the cursor advanced before any write, and that
no capacity check is made against objects_count. -/
def shard_object_write (s : shard_t) (key : List Nat) (object : List Nat) :
    Bool × shard_t :=
  let entry : shard_index_t :=
    { key := key.take SHARD_KEY_LEN, object_offset := shard_tell s.fs }
  let s1 := { s with index := s.index ++ [entry], index_offset := s.index_offset + 1 }
  match shard_write s1.fs (be8 object.length) with
  | (false, f1) => (false, { s1 with fs := f1 })
  | (true, f1) =>
    match shard_write f1 object with
    | (ok, f2) => (ok, { s1 with fs := f2 })

/-- Apply shard_object_write to each (key, object) pair in order, keeping
the state regardless of the returned flag (the flags are all true under an
empty oracle). -/
def writeAll (s : shard_t) : List (List Nat × List Nat) → shard_t
  | [] => s
  | p :: rest => writeAll (shard_object_write s p.1 p.2).2 rest

/-- Position of a key in a key list (first match), the model's view of where
the cmph minimal perfect hash sends a member key. -/
def keyIndex (key : List Nat) : List (List Nat) → Nat
  | [] => 0
  | k :: rest => if k = key then 0 else keyIndex key rest + 1

/-- Modelled from the spec: the cmph library is an external collaborator
(spec §1, §6.2); cmph_new builds a handle over the exact key set delivered
by the adapter stream and fails (returns NULL) when the stream yields
duplicate keys.  The handle is modelled by the key list itself. -/
def cmph_new (keys : List (List Nat)) : Option (List (List Nat)) :=
  if keys.Nodup then some keys else none

/-- Modelled from the spec: cmph_search maps a member key to its slot and
returns some arbitrary in-range slot for any other input (spec §6.2: a u32
in [0, nkeys) for any input, no membership check). -/
def cmph_search (hash : List (List Nat)) (key : List Nat) : Nat :=
  min (keyIndex key hash) (hash.length - 1)

/-- Modelled from the spec: cmph_size returns nkeys (spec §6.2). -/
def cmph_size (hash : List (List Nat)) : Nat := hash.length

/-- Modelled from the spec: cmph_dump writes a self-describing blob that
cmph_load reads back (spec §6.2); the blob is modelled as the key count
followed by the keys themselves. -/
def cmph_dump_bytes (hash : List (List Nat)) : List Nat :=
  be8 hash.length ++ hash.flatten

/-- Split a byte list into n chunks of SHARD_KEY_LEN bytes. -/
def keyChunks : Nat → List Nat → List (List Nat)
  | 0, _ => []
  | n + 1, l => l.take SHARD_KEY_LEN :: keyChunks n (l.drop SHARD_KEY_LEN)

/-- Modelled from the spec: cmph_load reads a blob written by cmph_dump from
the current file position and rebuilds the handle (spec §6.2). -/
def cmph_load (f : FS) : Option (List (List Nat) × FS) :=
  match shard_read_uint64_t f with
  | none => none
  | some (n, f1) =>
    match shard_read f1 (n * SHARD_KEY_LEN) with
    | none => none
    | some (raw, f2) => some (keyChunks n raw, f2)

/-- C io_read: hand out the key at the current index cursor with width
SHARD_KEY_LEN, advance the cursor, and return -1 exactly when the advanced
cursor has reached objects_count (0 otherwise).  Reading past the staged
entries is the C out-of-bounds read, modelled by the default entry. -/
def io_read (s : shard_t) : (List Nat × Nat × Int) × shard_t :=
  let key := (s.index.getD s.index_offset { key := [], object_offset := 0 }).key
  let s1 := { s with index_offset := s.index_offset + 1 }
  ((key, SHARD_KEY_LEN,
    if s1.index_offset ≥ s1.header.objects_count then -1 else 0), s1)

/-- C io_rewind: reset the index cursor. -/
def io_rewind (s : shard_t) : shard_t :=
  { s with index_offset := 0 }

/-- Iterate io_read m times, collecting the delivered (key, keylen, ret)
triples. -/
def ioPass (s : shard_t) : Nat → List (List Nat × Nat × Int) × shard_t
  | 0 => ([], s)
  | m + 1 =>
    match io_read s with
    | (out, s1) =>
      match ioPass s1 m with
      | (outs, s2) => (out :: outs, s2)

/-- The key stream the adapter delivers to cmph_new: the keys that one full
pass of io_read after io_rewind hands to the library, namely the first
objects_count staged keys. -/
def adapterKeys (s : shard_t) : List (List Nat) :=
  (s.index.map shard_index_t.key).take s.header.objects_count

/-- C shard_hash_create: build the cmph handle over the adapter's key
stream.  The C function returns 0 unconditionally: the result of cmph_new is
stored but never checked, so the returned flag is true even when the build
failed and the stored handle is NULL. -/
def shard_hash_create (s : shard_t) : Bool × shard_t :=
  (true, { s with hash := cmph_new (adapterKeys s) })

/-- The offset table built by shard_index_save: a calloc'ed array of count
slots where slot cmph_search(key) receives the staged offset of that key. -/
def buildTable (hash : List (List Nat)) (entries : List shard_index_t)
    (count : Nat) : List Nat :=
  entries.foldl (fun acc e => acc.set (cmph_search hash e.key) e.object_offset)
    (List.replicate count 0)

/-- C shard_index_save: set index_position, assert it equals tell, take
count = cmph_size(hash) (a NULL dereference when the cmph build failed),
set index_size = count * 8, fill the offset table and write it at the
current position as big-endian uint64_t values. -/
def shard_index_save (s : shard_t) : Option Err × shard_t :=
  let s0 := { s with header.index_position :=
    s.header.objects_position + s.header.objects_size }
  if s0.header.index_position ≠ shard_tell s0.fs then (some Err.assertFail, s0)
  else
    match s0.hash with
    | none => (some Err.nullDeref, s0)
    | some hash =>
      let count := cmph_size hash
      let s1 := { s0 with header.index_size := count * 8 }
      let table := buildTable hash (s1.index.take s1.index_offset) count
      match shard_write s1.fs ((table.map be8).flatten) with
      | (true, f1) => (none, { s1 with fs := f1 })
      | (false, f1) => (some Err.ioError, { s1 with fs := f1 })

/-- C shard_hash_save: set hash_position and cmph_dump the handle at the
current position (a NULL dereference when the build failed; unreachable in
shard_save because shard_index_save already dereferenced the handle).  The
C code discards the result of cmph_dump and returns 0 unconditionally, so
a failed dump write does not produce an error return: the success flag of
the write is dropped here exactly as the C drops cmph_dump's result. -/
def shard_hash_save (s : shard_t) : Option Err × shard_t :=
  let s0 := { s with header.hash_position :=
    s.header.index_position + s.header.index_size }
  match s0.hash with
  | none => (some Err.nullDeref, s0)
  | some hash =>
    (none, { s0 with fs := (shard_write s0.fs (cmph_dump_bytes hash)).2 })

/-- C shard_save: set objects_size = tell - objects_position, then run
hash_create, index_save, hash_save, header_save and magic_save in that
order, the short-circuit of the C disjunction aborting at the first
failure. -/
def shard_save (s : shard_t) : Option Err × shard_t :=
  let s0 := { s with header.objects_size :=
    (shard_tell s.fs - s.header.objects_position) }
  match shard_hash_create s0 with
  | (false, s1) => (some Err.ioError, s1)
  | (true, s1) =>
    match shard_index_save s1 with
    | (some e, s2) => (some e, s2)
    | (none, s2) =>
      match shard_hash_save s2 with
      | (some e, s3) => (some e, s3)
      | (none, s3) =>
        match shard_header_save s3 with
        | (some e, s4) => (some e, s4)
        | (none, s4) =>
          match shard_magic_save s4.fs with
          | (some e, f5) => (some e, { s4 with fs := f5 })
          | (none, f5) => (none, { s4 with fs := f5 })

/-- C shard_hash_load: seek to hash_position and cmph_load the blob. -/
def shard_hash_load (s : shard_t) : Except Err shard_t :=
  match shard_seek s.fs s.header.hash_position with
  | none => Except.error Err.ioError
  | some f0 =>
    match cmph_load f0 with
    | none => Except.error Err.ioError
    | some (hash, f1) => Except.ok { s with fs := f1, hash := some hash }

/-- C shard_load on a fresh handle: open the file read-only (position 0),
then magic_load, header_load and hash_load in that order. -/
def shard_load (data : List Nat) : Except Err shard_t :=
  let fs : FS := { data := data, pos := 0, wOk := [] }
  match shard_magic_load fs with
  | Except.error e => Except.error e
  | Except.ok f1 =>
    match shard_header_load f1 with
    | Except.error e => Except.error e
    | Except.ok (header, f2) =>
      shard_hash_load
        { fs := f2, header := header, index := [], index_offset := 0,
          hash := none }

/-- C shard_lookup_object_size: h = cmph_search(key), read the u64 offset at
index_position + h * 8, seek there and read the u64 size prefix, leaving the
file positioned at the first object byte. -/
def shard_lookup_object_size (s : shard_t) (key : List Nat) :
    Except Err (Nat × shard_t) :=
  match s.hash with
  | none => Except.error Err.nullDeref
  | some hash =>
    let h := cmph_search hash (key.take SHARD_KEY_LEN)
    let index_offset := s.header.index_position + h * 8
    match shard_seek s.fs index_offset with
    | none => Except.error Err.ioError
    | some f0 =>
      match shard_read_uint64_t f0 with
      | none => Except.error Err.ioError
      | some (object_offset, f1) =>
        match shard_seek f1 object_offset with
        | none => Except.error Err.ioError
        | some f2 =>
          match shard_read_uint64_t f2 with
          | none => Except.error Err.ioError
          | some (object_size, f3) =>
            Except.ok (object_size, { s with fs := f3 })

/-- C shard_lookup_object: read object_size bytes from the current
position. -/
def shard_lookup_object (s : shard_t) (object_size : Nat) :
    Except Err (List Nat × shard_t) :=
  match shard_read s.fs object_size with
  | none => Except.error Err.ioError
  | some (object, f1) => Except.ok (object, { s with fs := f1 })

/-- The resources a shard handle may hold (C shard_t pointer members). -/
inductive Res where
  | source
  | config
  | hash
  | index
  | path
deriving DecidableEq

/-- The lifecycle view of a C shard_t handle: which resources are currently
allocated (NULL pointers are none / false). -/
structure shard_handle where
  path : Option (List Nat)
  f : Option FS
  index : Bool
  source : Bool
  config : Bool
  hash : Bool
deriving DecidableEq

/-- C shard_init: malloc the handle, memset it to zero and strdup the path;
every other member is NULL. -/
def shard_init (path : List Nat) : shard_handle :=
  { path := some path, f := none, index := false, source := false,
    config := false, hash := false }

/-- C shard_close: return 0 immediately when no file is open, otherwise
fclose the file (modelled as succeeding). -/
def shard_close (h : shard_handle) : Int :=
  match h.f with
  | none => 0
  | some _ => 0

/-- C shard_destroy: free source, config, hash and index only when non-NULL,
free the path unconditionally, then return the shard_close result.  The
first component lists the resources actually released. -/
def shard_destroy (h : shard_handle) : List Res × Int :=
  ((if h.source then [Res.source] else []) ++
   (if h.config then [Res.config] else []) ++
   (if h.hash then [Res.hash] else []) ++
   (if h.index then [Res.index] else []) ++
   [Res.path],
   shard_close h)

/-- The bytes shard_object_write appends for one (key, object) pair: the
big-endian size prefix followed by the object. -/
def objRec (p : List Nat × List Nat) : List Nat :=
  be8 p.2.length ++ p.2

/-- The whole objects region for a write sequence. -/
def objFlat (pairs : List (List Nat × List Nat)) : List Nat :=
  (pairs.map objRec).flatten

/-- The index entries staged by a write sequence starting at file position
base. -/
def entriesFrom (base : Nat) : List (List Nat × List Nat) → List shard_index_t
  | [] => []
  | p :: rest =>
    { key := p.1.take SHARD_KEY_LEN, object_offset := base } ::
      entriesFrom (base + (8 + p.2.length)) rest

/-- The whole writer pipeline: create, write all pairs, finalize, with an
all-successful write oracle. -/
def shard_pipeline (pairs : List (List Nat × List Nat)) : Option Err × shard_t :=
  shard_save (writeAll (shard_create pairs.length []) pairs)

/-- The offsets stored in the offset table by a successful finalize, in
stage order (slot i receives the offset of object i because the model hash
sends key i to slot i). -/
def tableVals (pairs : List (List Nat × List Nat)) : List Nat :=
  (entriesFrom SHARD_OFFSET_HEADER pairs).map shard_index_t.object_offset

/-- The header a successful finalize computes. -/
def finalHeader (pairs : List (List Nat × List Nat)) : shard_header_t :=
  { version := SHARD_VERSION,
    objects_count := pairs.length,
    objects_position := SHARD_OFFSET_HEADER,
    objects_size := (objFlat pairs).length,
    index_position := SHARD_OFFSET_HEADER + (objFlat pairs).length,
    index_size := pairs.length * 8,
    hash_position := SHARD_OFFSET_HEADER + (objFlat pairs).length +
      pairs.length * 8 }

/-- The on-disk bytes of a header. -/
def headerBytes (h : shard_header_t) : List Nat :=
  ((headerFields h).map be8).flatten

/-- The on-disk bytes of the offset table. -/
def tableBytes (pairs : List (List Nat × List Nat)) : List Nat :=
  ((tableVals pairs).map be8).flatten

/-- The complete file of a successfully finalized shard: magic, header,
objects region, offset table, cmph blob. -/
def finalData (pairs : List (List Nat × List Nat)) : List Nat :=
  SHARD_MAGIC ++ headerBytes (finalHeader pairs) ++ objFlat pairs ++
    tableBytes pairs ++ cmph_dump_bytes (pairs.map Prod.fst)

/-- A file with no valid magic: empty, or long enough but differing from the
magic constant somewhere in its first bytes. -/
def no_magic (d : List Nat) : Prop :=
  d = [] ∨ (SHARD_OFFSET_MAGIC ≤ d.length ∧
    d.take SHARD_OFFSET_MAGIC ≠ SHARD_MAGIC)

/-- Invariant carried through the pre-magic steps of shard_save: the file
has no valid magic and the position is at or past the magic area. -/
def saveInv (f : FS) : Prop :=
  no_magic f.data ∧ SHARD_OFFSET_MAGIC ≤ f.pos


theorem be8_length (v : Nat) : (be8 v).length = 8 := rfl

theorem beVal_be8 (v : Nat) (h : v < 2 ^ 64) : beVal (be8 v) = v := by
  simp only [be8, beVal, List.foldl]
  omega

theorem take_append_exact (A B : List Nat) (n : Nat) (h : A.length = n) :
    (A ++ B).take n = A := by
  subst h; exact List.take_left A B

theorem drop_append_exact (A B : List Nat) (n : Nat) (h : A.length = n) :
    (A ++ B).drop n = B := by
  subst h; exact List.drop_left A B

theorem drop_append_exact_add (A B : List Nat) (n m : Nat) (h : A.length = n) :
    (A ++ B).drop (n + m) = B.drop m := by
  subst h
  rw [← List.drop_drop, List.drop_left]

theorem padTo_length (d : List Nat) (n : Nat) :
    (padTo d n).length = max d.length n := by
  simp [padTo]
  omega

theorem padTo_of_le (d : List Nat) (n : Nat) (h : n ≤ d.length) :
    padTo d n = d := by
  simp [padTo, Nat.sub_eq_zero_of_le h]

/-- A write at or past the end of the file pads with zeros and appends. -/
theorem writeAt_append (d : List Nat) (p : Nat) (b : List Nat)
    (hp : d.length ≤ p) (hb : b ≠ []) :
    writeAt d p b = padTo d p ++ b := by
  have hlen : (padTo d p).length = p := by
    rw [padTo_length]; omega
  simp only [writeAt, List.isEmpty_iff, hb, if_false]
  rw [List.take_of_length_le (le_of_eq hlen),
    List.drop_eq_nil_of_le (by rw [hlen]; omega), List.append_nil]

/-- Two consecutive writes are one write of the concatenation. -/
theorem writeAt_writeAt (d : List Nat) (p : Nat) (b1 b2 : List Nat) :
    writeAt (writeAt d p b1) (p + b1.length) b2 = writeAt d p (b1 ++ b2) := by
  cases b1 with
  | nil => simp [writeAt]
  | cons x1 t1 =>
    cases b2 with
    | nil => simp [writeAt]
    | cons x2 t2 =>
      set B1 := x1 :: t1 with hB1
      set B2 := x2 :: t2 with hB2
      set P := padTo d p with hP
      have hPlen : p ≤ P.length := by rw [hP, padTo_length]; omega
      have htakeP : (P.take p).length = p := by simp; omega
      set D1 := P.take p ++ B1 ++ P.drop (p + B1.length) with hD1
      have hwr1 : writeAt d p B1 = D1 := by
        simp [writeAt, hB1, hD1, hP]
      have hlen2 : (P.take p ++ B1).length = p + B1.length := by
        simp [htakeP]
      have hD1len : p + B1.length ≤ D1.length := by
        rw [hD1]; simp; omega
      have htake1 : D1.take (p + B1.length) = P.take p ++ B1 :=
        take_append_exact _ _ _ hlen2
      have hdrop1 : D1.drop (p + B1.length + B2.length) =
          P.drop (p + B1.length + B2.length) := by
        rw [hD1, drop_append_exact_add _ _ _ _ hlen2, List.drop_drop]
      have hpad1 : padTo D1 (p + B1.length) = D1 := padTo_of_le _ _ hD1len
      rw [hwr1]
      show writeAt D1 (p + B1.length) B2 = writeAt d p (B1 ++ B2)
      simp only [writeAt, hB1, hB2, List.isEmpty_iff, reduceCtorEq, if_false,
        List.cons_append, hpad1]
      rw [htake1, hdrop1]
      have harith : p + B1.length + B2.length = p + (t1.length + (t2.length + 2)) := by
        simp [hB1, hB2]
        omega
      rw [harith]
      simp only [List.append_assoc, hB1, hB2, List.cons_append, List.nil_append,
        List.length_cons, hP]
      have harith2 : p + (t1.length + (t2.length + 2)) =
          p + (t1.length + (t2.length + 1) + 1) := by omega
      rw [harith2]
      simp only [List.length_append, List.length_cons]

/-- With an exhausted (all-successful) oracle a write always succeeds and
appends/overwrites at the current position. -/
theorem shard_write_nil (f : FS) (bytes : List Nat) (h : f.wOk = []) :
    shard_write f bytes =
      (true, { data := writeAt f.data f.pos bytes, pos := f.pos + bytes.length,
               wOk := [] }) := by
  cases f with
  | mk data pos wOk =>
    subst h
    cases bytes with
    | nil => simp [shard_write, writeAt]
    | cons x t => simp [shard_write]

/-- writeFields under an all-successful oracle writes the concatenation of
the big-endian encodings. -/
theorem writeFields_spec (vs : List Nat) (f : FS) (h : f.wOk = []) :
    writeFields f vs =
      (none, { data := writeAt f.data f.pos ((vs.map be8).flatten),
               pos := f.pos + 8 * vs.length, wOk := [] }) := by
  induction vs generalizing f with
  | nil =>
    cases f with
    | mk data pos wOk => subst h; simp [writeFields, writeAt]
  | cons v rest ih =>
    rw [writeFields, shard_write_nil f (be8 v) h]
    dsimp only
    rw [ih _ rfl]
    simp only [List.map_cons, List.flatten_cons]
    rw [writeAt_writeAt]
    have harith : f.pos + (be8 v).length + 8 * rest.length =
        f.pos + 8 * (v :: rest).length := by
      simp [be8_length]; omega
    rw [be8_length] at harith ⊢
    rw [harith]

theorem objRec_length (p : List Nat × List Nat) :
    (objRec p).length = 8 + p.2.length := by
  simp [objRec, be8_length]

theorem objRec_ne_nil (p : List Nat × List Nat) : objRec p ≠ [] := by
  simp [objRec, be8]

theorem entriesFrom_length (base : Nat) (pairs : List (List Nat × List Nat)) :
    (entriesFrom base pairs).length = pairs.length := by
  induction pairs generalizing base with
  | nil => rfl
  | cons p rest ih => simp [entriesFrom, ih]

/-- Closed form of a successful write sequence: the object records are
written consecutively from the current position and the index collects the
keys with strictly increasing offsets. -/
theorem writeAll_spec (pairs : List (List Nat × List Nat)) (s : shard_t)
    (h : s.fs.wOk = []) :
    writeAll s pairs =
      { s with
        fs := { data := writeAt s.fs.data s.fs.pos (objFlat pairs),
                pos := s.fs.pos + (objFlat pairs).length, wOk := [] },
        index := s.index ++ entriesFrom s.fs.pos pairs,
        index_offset := s.index_offset + pairs.length } := by
  induction pairs generalizing s with
  | nil =>
    cases s with
    | mk fs header index index_offset hash =>
      cases fs with
      | mk data pos wOk =>
        subst h
        simp [writeAll, objFlat, entriesFrom, writeAt]
  | cons p rest ih =>
    rw [writeAll, shard_object_write]
    rw [shard_write_nil s.fs (be8 p.2.length) h]
    dsimp only
    rw [shard_write_nil _ p.2 rfl]
    dsimp only
    rw [writeAt_writeAt, be8_length]
    rw [ih _ rfl]
    dsimp only
    have hblen : s.fs.pos + 8 + p.2.length =
        s.fs.pos + (be8 p.2.length ++ p.2).length := by
      simp [be8_length]
      omega
    rw [hblen, writeAt_writeAt]
    have hflat : objFlat (p :: rest) = (be8 p.2.length ++ p.2) ++ objFlat rest := by
      simp [objFlat, objRec]
    simp only [shard_t.mk.injEq, FS.mk.injEq, hflat, shard_tell, entriesFrom,
      List.length_append, be8_length, List.append_assoc, List.singleton_append,
      List.cons_append, List.length_cons]
    and_intros <;> first | trivial | omega

theorem keyIndex_get (l : List (List Nat)) (hnd : l.Nodup) (i : Nat)
    (hi : i < l.length) : keyIndex (l.get ⟨i, hi⟩) l = i := by
  induction l generalizing i with
  | nil => simp at hi
  | cons k rest ih =>
    cases i with
    | zero => simp [keyIndex]
    | succ j =>
      have hj : j < rest.length := by simpa using hi
      have hk : k ≠ rest.get ⟨j, hj⟩ := by
        intro hkeq
        exact (List.nodup_cons.mp hnd).1 (hkeq ▸ List.get_mem rest j hj)
      simp only [List.get_cons_succ, keyIndex]
      rw [if_neg hk, ih (List.nodup_cons.mp hnd).2 j hj]

theorem cmph_search_get (l : List (List Nat)) (hnd : l.Nodup) (i : Nat)
    (hi : i < l.length) : cmph_search l (l.get ⟨i, hi⟩) = i := by
  rw [cmph_search, keyIndex_get l hnd i hi]
  omega

/-- The cmph model is a bijection of the key set onto the range
[0, objects_count): member key i is sent to slot i. -/
theorem cmph_search_bijection (l : List (List Nat)) (hnd : l.Nodup) :
    l.map (cmph_search l) = List.range l.length := by
  apply List.ext_get
  · simp
  intro i h1 h2
  rw [List.get_map, List.get_range]
  exact cmph_search_get l hnd i (by simpa using h1)

theorem set_append_exact (A : List Nat) (x : Nat) (B : List Nat) (n : Nat)
    (h : A.length = n) (v : Nat) : (A ++ x :: B).set n v = A ++ v :: B := by
  subst h
  induction A with
  | nil => rfl
  | cons a t ih => simp [List.set, ih]

theorem foldl_set_spec (es : List shard_index_t) (g : shard_index_t → Nat) :
    ∀ (A acc : List Nat), acc.length = es.length →
    (∀ i (hi : i < es.length), g (es.get ⟨i, hi⟩) = A.length + i) →
    es.foldl (fun a e => a.set (g e) e.object_offset) (A ++ acc) =
      A ++ es.map shard_index_t.object_offset := by
  induction es with
  | nil =>
    intro A acc hlen _
    have hacc : acc = [] := List.length_eq_zero.mp (by simpa using hlen)
    subst hacc
    simp
  | cons e rest ih =>
    intro A acc hlen hg
    cases acc with
    | nil => simp at hlen
    | cons a acct =>
      have hg0 : g e = A.length := by
        have := hg 0 (by simp)
        simpa using this
      rw [List.foldl_cons, hg0, set_append_exact A a acct A.length rfl]
      have hstep : A ++ e.object_offset :: acct =
          (A ++ [e.object_offset]) ++ acct := by simp
      rw [hstep, ih (A ++ [e.object_offset]) acct (by simpa using hlen)]
      · simp
      intro i hi
      have := hg (i + 1) (by simpa using Nat.succ_lt_succ hi)
      simpa [Nat.add_assoc, Nat.add_comm 1 i] using this

/-- The offset table: when every staged key hashes to its own position, the
table is exactly the staged offsets in stage order. -/
theorem buildTable_spec (hash : List (List Nat)) (es : List shard_index_t)
    (count : Nat) (hlen : es.length = count)
    (hsearch : ∀ i (hi : i < es.length),
      cmph_search hash (es.get ⟨i, hi⟩).key = i) :
    buildTable hash es count = es.map shard_index_t.object_offset := by
  have := foldl_set_spec es (fun e => cmph_search hash e.key) []
    (List.replicate count 0) (by simp [hlen]) (by simpa using hsearch)
  simpa [buildTable] using this

theorem entriesFrom_map_key (pairs : List (List Nat × List Nat)) :
    ∀ base, (entriesFrom base pairs).map shard_index_t.key =
      pairs.map (fun p => p.1.take SHARD_KEY_LEN) := by
  induction pairs with
  | nil => intro base; rfl
  | cons p rest ih => intro base; simp [entriesFrom, ih]

theorem entriesFrom_get_key (pairs : List (List Nat × List Nat)) :
    ∀ base i (hi : i < pairs.length),
      ((entriesFrom base pairs).get
        ⟨i, by rw [entriesFrom_length]; exact hi⟩).key =
      (pairs.get ⟨i, hi⟩).1.take SHARD_KEY_LEN := by
  induction pairs with
  | nil => intro base i hi; simp at hi
  | cons p rest ih =>
    intro base i hi
    cases i with
    | zero => rfl
    | succ j => exact ih (base + (8 + p.2.length)) j (by simpa using hi)

theorem entriesFrom_get_offset (pairs : List (List Nat × List Nat)) :
    ∀ base i (hi : i < pairs.length),
      ((entriesFrom base pairs).get
        ⟨i, by rw [entriesFrom_length]; exact hi⟩).object_offset =
      base + (objFlat (pairs.take i)).length := by
  induction pairs with
  | nil => intro base i hi; simp at hi
  | cons p rest ih =>
    intro base i hi
    cases i with
    | zero => simp [entriesFrom, objFlat]
    | succ j =>
      have ht := ih (base + (8 + p.2.length)) j (by simpa using hi)
      simp only [entriesFrom, List.get_cons_succ]
      rw [ht]
      simp [objFlat, objRec, be8_length]
      omega

theorem flatten_map_be8_length (vs : List Nat) :
    ((vs.map be8).flatten).length = 8 * vs.length := by
  induction vs with
  | nil => rfl
  | cons v rest ih => simp [ih, be8_length]; omega

/-- A write that stays inside the existing file overwrites in place. -/
theorem writeAt_inbounds (d : List Nat) (p : Nat) (b : List Nat)
    (h : p + b.length ≤ d.length) :
    writeAt d p b = d.take p ++ b ++ d.drop (p + b.length) := by
  cases b with
  | nil => simp [writeAt]
  | cons x t =>
    rw [writeAt]
    simp only [List.isEmpty_cons, if_false, Bool.false_eq_true]
    rw [padTo_of_le d p (by simp at h ⊢; omega)]

theorem headerFields_length (h : shard_header_t) : (headerFields h).length = 7 := rfl

theorem overwrite_pre (pre R b : List Nat) (p : Nat)
    (hp : pre.length = p + b.length) :
    writeAt (pre ++ R) p b = pre.take p ++ b ++ R := by
  rw [writeAt_inbounds _ _ _ (by simp [hp])]
  rw [List.take_append_eq_append_take, Nat.sub_eq_zero_of_le (by omega),
    List.take_zero, List.append_nil, drop_append_exact _ _ _ hp]

theorem headerBytes_length (hd : shard_header_t) :
    ((headerFields hd).map be8).flatten.length = 56 := by
  rw [flatten_map_be8_length, headerFields_length]

theorem dump_ne_nil (keys : List (List Nat)) : cmph_dump_bytes keys ≠ [] := by
  simp [cmph_dump_bytes, be8]

theorem take_map_length {A B : Type} (l : List A) (f : A → B) :
    (l.map f).take l.length = l.map f := by
  rw [List.take_of_length_le]
  simp

theorem adapterKeys_entriesFrom (B : Nat) (pairs : List (List Nat × List Nat))
    (fs : FS) (hd : shard_header_t) (ioff : Nat) (hs : Option (List (List Nat)))
    (hcount : hd.objects_count = pairs.length) :
    adapterKeys { fs := fs, header := hd, index := entriesFrom B pairs,
                  index_offset := ioff, hash := hs } =
      pairs.map (fun p => p.1.take SHARD_KEY_LEN) := by
  simp only [adapterKeys, entriesFrom_map_key, hcount]
  exact take_map_length pairs _

theorem shard_pipeline_spec (pairs : List (List Nat × List Nat))
    (hk : ∀ p ∈ pairs, p.1.length = SHARD_KEY_LEN)
    (hnd : (pairs.map Prod.fst).Nodup) :
    shard_pipeline pairs =
      (none,
        { fs := { data := finalData pairs, pos := SHARD_OFFSET_MAGIC, wOk := [] },
          header := finalHeader pairs,
          index := entriesFrom SHARD_OFFSET_HEADER pairs,
          index_offset := pairs.length,
          hash := some (pairs.map Prod.fst) }) := by
  rw [shard_pipeline, writeAll_spec pairs _ rfl]
  simp only [shard_create, shard_header_reset]
  rw [shard_save]
  simp only [shard_tell, Nat.add_sub_cancel_left, List.nil_append, Nat.zero_add]
  have hkeys : pairs.map (fun p => p.1.take SHARD_KEY_LEN) = pairs.map Prod.fst :=
    List.map_congr_left (fun p hp => by
      rw [List.take_of_length_le (le_of_eq (hk p hp))])
  rw [shard_hash_create, adapterKeys_entriesFrom _ _ _ _ _ _ rfl, hkeys,
    cmph_new, if_pos hnd]
  dsimp only
  have hsearch : ∀ i (hi : i < (entriesFrom SHARD_OFFSET_HEADER pairs).length),
      cmph_search (pairs.map Prod.fst)
        ((entriesFrom SHARD_OFFSET_HEADER pairs).get ⟨i, hi⟩).key = i := by
    intro i hi
    have hip : i < pairs.length := by rwa [entriesFrom_length] at hi
    rw [entriesFrom_get_key pairs SHARD_OFFSET_HEADER i hip,
      List.take_of_length_le (le_of_eq (hk _ (List.get_mem pairs i hip)))]
    have hget : (pairs.get ⟨i, hip⟩).1 =
        (pairs.map Prod.fst).get ⟨i, by simpa using hip⟩ := by
      simp
    rw [hget]
    exact cmph_search_get _ hnd i _
  rw [shard_index_save]
  dsimp only
  rw [if_neg (by simp [shard_tell])]
  dsimp only [cmph_size]
  rw [List.take_of_length_le (le_of_eq (entriesFrom_length _ _))]
  rw [buildTable_spec _ _ _ (by simp [entriesFrom_length]) hsearch]
  rw [shard_write_nil _ _ rfl]
  dsimp only
  rw [writeAt_writeAt]
  set OF := objFlat pairs with hOF
  set TB := (List.map be8
    (List.map shard_index_t.object_offset
      (entriesFrom SHARD_OFFSET_HEADER pairs))).flatten with hTB
  set DUMP := cmph_dump_bytes (List.map Prod.fst pairs) with hDUMP
  rw [shard_hash_save]
  dsimp only
  rw [shard_write_nil _ _ rfl]
  dsimp only
  have h1 : SHARD_OFFSET_HEADER + OF.length + TB.length =
      SHARD_OFFSET_HEADER + (OF ++ TB).length := by
    simp
    omega
  rw [h1, writeAt_writeAt]
  rw [shard_header_save]
  dsimp only
  rw [shard_seek, if_pos (by decide)]
  dsimp only
  rw [writeFields_spec _ _ rfl]
  simp only [shard_magic_save]
  rw [shard_seek, if_pos (by decide)]
  dsimp only
  rw [shard_write_nil _ _ rfl]
  dsimp only
  simp only [List.length_map]
  have hOHv : SHARD_OFFSET_HEADER = 62 := rfl
  have hOMv : SHARD_OFFSET_MAGIC = 6 := rfl
  have hMlen : SHARD_MAGIC.length = 6 := rfl
  have hD2 : writeAt [] SHARD_OFFSET_HEADER (OF ++ TB ++ cmph_dump_bytes (List.map Prod.fst pairs)) =
      List.replicate 62 0 ++ (OF ++ TB ++ cmph_dump_bytes (List.map Prod.fst pairs)) := by
    rw [writeAt_append _ _ _ (by simp) (by simp [dump_ne_nil])]
    rw [padTo, hOHv]
    simp
  rw [hD2]
  simp only [hOMv, hMlen, Nat.zero_add]
  rw [overwrite_pre (List.replicate 62 0) _ _ 6 (by rw [List.length_replicate, headerBytes_length])]
  rw [List.append_assoc ((List.replicate 62 0).take 6)]
  rw [overwrite_pre ((List.replicate 62 0).take 6) _ _ 0 (by simp [hMlen])]
  dsimp only [finalData, finalHeader, headerBytes, tableBytes, tableVals]
  simp [List.append_assoc]
  rw [hTB, List.map_map]

theorem readU64s_spec (vs : List Nat) : ∀ (f : FS) (rest : List Nat),
    f.data.drop f.pos = (vs.map be8).flatten ++ rest →
    f.pos ≤ f.data.length →
    (∀ v ∈ vs, v < 2 ^ 64) →
    readU64s f vs.length =
      some (vs, { f with pos := f.pos + 8 * vs.length }) := by
  induction vs with
  | nil =>
    intro f rest hd hp hb
    simp [readU64s]
  | cons v rest0 ih =>
    intro f rest hd hp hb
    have hlen : f.data.length - f.pos = 8 + (8 * rest0.length + rest.length) := by
      have h0 := congrArg List.length hd
      rw [List.length_drop, List.length_append, flatten_map_be8_length,
        List.length_cons] at h0
      omega
    rw [List.length_cons, readU64s, shard_read_uint64_t, shard_read,
      if_pos (by omega)]
    dsimp only
    have hdrop8 : (f.data.drop f.pos).take 8 = be8 v := by
      rw [hd]
      simp only [List.map_cons, List.flatten_cons, List.append_assoc]
      exact take_append_exact _ _ _ (be8_length v)
    rw [hdrop8, beVal_be8 v (hb v (by simp))]
    have hd1 : f.data.drop (f.pos + 8) = (rest0.map be8).flatten ++ rest := by
      rw [← List.drop_drop, hd]
      simp only [List.map_cons, List.flatten_cons, List.append_assoc]
      exact drop_append_exact _ _ _ (be8_length v)
    rw [ih { f with pos := f.pos + 8 } rest hd1 (by simp; omega)
      (fun w hw => hb w (by simp [hw]))]
    dsimp only
    have : f.pos + 8 + 8 * rest0.length = f.pos + 8 * (rest0.length + 1) := by
      omega
    rw [this]

theorem keyChunks_flatten (keys : List (List Nat))
    (hk : ∀ k ∈ keys, k.length = SHARD_KEY_LEN) :
    keyChunks keys.length keys.flatten = keys := by
  induction keys with
  | nil => rfl
  | cons k rest ih =>
    rw [List.length_cons, List.flatten_cons, keyChunks]
    rw [take_append_exact _ _ _ (hk k (by simp)),
      drop_append_exact _ _ _ (hk k (by simp)),
      ih (fun w hw => hk w (by simp [hw]))]

theorem tableVals_length (pairs : List (List Nat × List Nat)) :
    (tableVals pairs).length = pairs.length := by
  simp [tableVals, entriesFrom_length]

theorem tableBytes_length (pairs : List (List Nat × List Nat)) :
    (tableBytes pairs).length = 8 * pairs.length := by
  rw [tableBytes, flatten_map_be8_length, tableVals_length]

theorem headerBytes_len (hd : shard_header_t) : (headerBytes hd).length = 56 :=
  headerBytes_length hd

theorem flatten_keys_length (keys : List (List Nat))
    (hk : ∀ k ∈ keys, k.length = SHARD_KEY_LEN) :
    keys.flatten.length = SHARD_KEY_LEN * keys.length := by
  induction keys with
  | nil => rfl
  | cons k rest ih =>
    rw [List.flatten_cons, List.length_append, hk k (by simp),
      ih (fun w hw => hk w (by simp [hw])), List.length_cons]
    ring

theorem finalData_length (pairs : List (List Nat × List Nat)) :
    (finalData pairs).length =
      70 + (objFlat pairs).length + 8 * pairs.length +
        (pairs.map Prod.fst).flatten.length := by
  rw [finalData]
  simp only [List.length_append, headerBytes_len, tableBytes_length,
    cmph_dump_bytes, List.length_map, be8_length]
  have : SHARD_MAGIC.length = 6 := rfl
  omega

theorem load_spec (pairs : List (List Nat × List Nat))
    (hk : ∀ p ∈ pairs, p.1.length = SHARD_KEY_LEN)
    (hsz : (finalData pairs).length ≤ INT64_MAX) :
    shard_load (finalData pairs) =
      Except.ok
        { fs := { data := finalData pairs,
                  pos := SHARD_OFFSET_HEADER + (objFlat pairs).length +
                    pairs.length * 8 + 8 + pairs.length * SHARD_KEY_LEN,
                  wOk := [] },
          header := finalHeader pairs, index := [], index_offset := 0,
          hash := some (pairs.map Prod.fst) } := by
  have hI : INT64_MAX = 9223372036854775807 := by decide
  have hfl := finalData_length pairs
  have hkl : (pairs.map Prod.fst).flatten.length = SHARD_KEY_LEN * pairs.length := by
    rw [flatten_keys_length _ (by
      intro k hkk
      rcases List.mem_map.mp hkk with ⟨p, hp, rfl⟩
      exact hk p hp), List.length_map]
  have hfd : finalData pairs =
      SHARD_MAGIC ++ (headerBytes (finalHeader pairs) ++ (objFlat pairs ++
        (tableBytes pairs ++ cmph_dump_bytes (pairs.map Prod.fst)))) := by
    simp [finalData, List.append_assoc]
  rw [shard_load]
  rw [shard_magic_load, shard_seek, if_pos (by rw [hI]; omega)]
  dsimp only
  rw [shard_read]
  rw [if_pos (by
    have h6 : SHARD_MAGIC.length = 6 := rfl
    dsimp only
    rw [h6, hfl]
    omega)]
  dsimp only
  rw [List.drop_zero]
  have hmagic : (finalData pairs).take SHARD_MAGIC.length = SHARD_MAGIC := by
    rw [hfd]
    exact take_append_exact _ _ _ rfl
  rw [hmagic, if_pos rfl]
  dsimp only
  rw [shard_header_load, shard_seek, if_pos (by rw [hI]; decide)]
  dsimp only
  have hd6 : (FS.mk (finalData pairs) SHARD_OFFSET_MAGIC []).data.drop
      (FS.mk (finalData pairs) SHARD_OFFSET_MAGIC []).pos =
      ((headerFields (finalHeader pairs)).map be8).flatten ++
        (objFlat pairs ++ (tableBytes pairs ++
          cmph_dump_bytes (pairs.map Prod.fst))) := by
    dsimp only
    rw [hfd]
    exact drop_append_exact _ _ _ rfl
  have hb64 : ∀ v ∈ headerFields (finalHeader pairs), v < 2 ^ 64 := by
    intro v hv
    have hOH62 : SHARD_OFFSET_HEADER = 62 := rfl
    rw [hfl, hI] at hsz
    simp only [headerFields, finalHeader, SHARD_VERSION, hOH62,
      List.mem_cons, List.not_mem_nil, or_false] at hv
    rcases hv with rfl | rfl | rfl | rfl | rfl | rfl | rfl <;> omega
  have hread := readU64s_spec (headerFields (finalHeader pairs))
    (FS.mk (finalData pairs) SHARD_OFFSET_MAGIC []) _ hd6
    (by
      dsimp only
      rw [hfl]
      have h6 : SHARD_OFFSET_MAGIC = 6 := rfl
      omega)
    hb64
  have h7len : (headerFields (finalHeader pairs)).length = 7 := rfl
  rw [h7len] at hread
  rw [hread]
  dsimp only [headerFields]
  rw [if_pos (show (finalHeader pairs).version = SHARD_VERSION from rfl)]
  dsimp only
  have hK32 : SHARD_KEY_LEN = 32 := rfl
  have hOH62 : SHARD_OFFSET_HEADER = 62 := rfl
  have hszn : 70 + (objFlat pairs).length + 8 * pairs.length +
      32 * pairs.length ≤ 9223372036854775807 := by
    rw [hfl, hI] at hsz
    rw [hkl, hK32] at hsz
    omega
  have hfd2 : finalData pairs =
      (SHARD_MAGIC ++ headerBytes (finalHeader pairs) ++ objFlat pairs ++
        tableBytes pairs) ++ cmph_dump_bytes (pairs.map Prod.fst) := by
    simp [finalData, List.append_assoc]
  have hPRElen : (SHARD_MAGIC ++ headerBytes (finalHeader pairs) ++
      objFlat pairs ++ tableBytes pairs).length =
      SHARD_OFFSET_HEADER + (objFlat pairs).length + pairs.length * 8 := by
    simp only [List.length_append, headerBytes_len, tableBytes_length]
    have h6 : SHARD_MAGIC.length = 6 := rfl
    rw [h6, hOH62]
    omega
  have hdrophp : (finalData pairs).drop
      (SHARD_OFFSET_HEADER + (objFlat pairs).length + pairs.length * 8) =
      cmph_dump_bytes (pairs.map Prod.fst) := by
    rw [hfd2]
    exact drop_append_exact _ _ _ hPRElen
  rw [shard_hash_load]
  dsimp only [finalHeader]
  rw [shard_seek, if_pos (by rw [hI]; omega)]
  dsimp only
  rw [cmph_load, shard_read_uint64_t, shard_read,
    if_pos (by dsimp only; rw [hfl, hkl, hK32]; rw [hOH62]; omega)]
  dsimp only
  rw [hdrophp]
  have hcount : (cmph_dump_bytes (pairs.map Prod.fst)).take 8 =
      be8 (pairs.map Prod.fst).length := by
    rw [cmph_dump_bytes]
    exact take_append_exact _ _ _ (be8_length _)
  rw [hcount, beVal_be8 _ (by rw [List.length_map]; omega)]
  rw [shard_read, if_pos (by
    dsimp only
    rw [hfl, hkl, hK32, List.length_map]
    omega)]
  have hdrop2 : (finalData pairs).drop
      (SHARD_OFFSET_HEADER + (objFlat pairs).length + pairs.length * 8 + 8) =
      (pairs.map Prod.fst).flatten := by
    rw [← List.drop_drop, hdrophp, cmph_dump_bytes]
    exact drop_append_exact _ _ _ (be8_length _)
  rw [hdrop2]
  rw [List.take_of_length_le (by rw [hkl, hK32, List.length_map]; omega)]
  dsimp only
  rw [keyChunks_flatten _ (by
    intro k hkk
    rcases List.mem_map.mp hkk with ⟨p, hp, rfl⟩
    exact hk p hp)]
  simp [List.length_map]

theorem flatten_map_drop {α : Type} (f : α → List Nat) (l : List α) :
    ∀ (i : Nat) (hi : i < l.length),
    ((l.map f).flatten).drop (((l.take i).map f).flatten).length =
      f (l.get ⟨i, hi⟩) ++ ((l.drop (i + 1)).map f).flatten := by
  induction l with
  | nil => intro i hi; simp at hi
  | cons x rest ih =>
    intro i hi
    cases i with
    | zero => simp
    | succ j =>
      have hj : j < rest.length := by simpa using hi
      have step := ih j hj
      simp only [List.take_succ_cons, List.map_cons, List.flatten_cons,
        List.length_append, List.get_cons_succ, List.drop_succ_cons]
      rw [← step]
      rw [drop_append_exact_add _ _ _ _ rfl]

theorem objFlat_append (a b : List (List Nat × List Nat)) :
    objFlat (a ++ b) = objFlat a ++ objFlat b := by
  simp [objFlat]

theorem objFlat_take_le (pairs : List (List Nat × List Nat)) (i : Nat) :
    (objFlat (pairs.take i)).length ≤ (objFlat pairs).length := by
  conv_rhs => rw [← List.take_append_drop i pairs]
  rw [objFlat_append]
  simp

theorem lookup_spec (pairs : List (List Nat × List Nat))
    (hk : ∀ p ∈ pairs, p.1.length = SHARD_KEY_LEN)
    (hnd : (pairs.map Prod.fst).Nodup)
    (hsz : (finalData pairs).length ≤ INT64_MAX)
    (i : Nat) (hi : i < pairs.length) (p0 : Nat) :
    shard_lookup_object_size
      { fs := { data := finalData pairs, pos := p0, wOk := [] },
        header := finalHeader pairs, index := [], index_offset := 0,
        hash := some (pairs.map Prod.fst) } (pairs.get ⟨i, hi⟩).1 =
      Except.ok ((pairs.get ⟨i, hi⟩).2.length,
        { fs := { data := finalData pairs,
                  pos := SHARD_OFFSET_HEADER + (objFlat (pairs.take i)).length + 8,
                  wOk := [] },
          header := finalHeader pairs, index := [], index_offset := 0,
          hash := some (pairs.map Prod.fst) }) ∧
    shard_lookup_object
      { fs := { data := finalData pairs,
                pos := SHARD_OFFSET_HEADER + (objFlat (pairs.take i)).length + 8,
                wOk := [] },
        header := finalHeader pairs, index := [], index_offset := 0,
        hash := some (pairs.map Prod.fst) } (pairs.get ⟨i, hi⟩).2.length =
      Except.ok ((pairs.get ⟨i, hi⟩).2,
        { fs := { data := finalData pairs,
                  pos := SHARD_OFFSET_HEADER + (objFlat (pairs.take i)).length + 8 +
                    (pairs.get ⟨i, hi⟩).2.length,
                  wOk := [] },
          header := finalHeader pairs, index := [], index_offset := 0,
          hash := some (pairs.map Prod.fst) }) := by
  have hI : INT64_MAX = 9223372036854775807 := by decide
  have hK32 : SHARD_KEY_LEN = 32 := rfl
  have hOH62 : SHARD_OFFSET_HEADER = 62 := rfl
  have hfl := finalData_length pairs
  have hkl : (pairs.map Prod.fst).flatten.length = SHARD_KEY_LEN * pairs.length := by
    rw [flatten_keys_length _ (by
      intro k hkk
      rcases List.mem_map.mp hkk with ⟨p, hp, rfl⟩
      exact hk p hp), List.length_map]
  have hszn : 70 + (objFlat pairs).length + 8 * pairs.length +
      32 * pairs.length ≤ 9223372036854775807 := by
    rw [hfl, hI] at hsz
    rw [hkl, hK32] at hsz
    omega
  have htake_le := objFlat_take_le pairs i
  -- the offset stored in table slot i
  have htvlen : i < (tableVals pairs).length := by
    rw [tableVals_length]
    exact hi
  have htv : (tableVals pairs).get ⟨i, htvlen⟩ =
      SHARD_OFFSET_HEADER + (objFlat (pairs.take i)).length := by
    have hgm : (tableVals pairs).get ⟨i, htvlen⟩ =
        ((entriesFrom SHARD_OFFSET_HEADER pairs).get
          ⟨i, by rw [entriesFrom_length]; exact hi⟩).object_offset := by
      simp only [tableVals, List.get_map]
    rw [hgm]
    exact entriesFrom_get_offset pairs SHARD_OFFSET_HEADER i hi
  -- the byte layout around the table slot
  have hfd3 : finalData pairs =
      (SHARD_MAGIC ++ headerBytes (finalHeader pairs) ++ objFlat pairs) ++
        (tableBytes pairs ++ cmph_dump_bytes (pairs.map Prod.fst)) := by
    simp [finalData, List.append_assoc]
  have hPRE3len : (SHARD_MAGIC ++ headerBytes (finalHeader pairs) ++
      objFlat pairs).length = SHARD_OFFSET_HEADER + (objFlat pairs).length := by
    simp only [List.length_append, headerBytes_len]
    have h6 : SHARD_MAGIC.length = 6 := rfl
    rw [h6, hOH62]
  have hdropT : (finalData pairs).drop
      (SHARD_OFFSET_HEADER + (objFlat pairs).length + i * 8) =
      be8 ((tableVals pairs).get ⟨i, htvlen⟩) ++
        ((((tableVals pairs).drop (i + 1)).map be8).flatten ++
          cmph_dump_bytes (pairs.map Prod.fst)) := by
    rw [hfd3, drop_append_exact_add _ _ _ _ hPRE3len]
    rw [List.drop_append_eq_append_drop]
    have hTBlen : i * 8 ≤ (tableBytes pairs).length := by
      rw [tableBytes_length]
      omega
    rw [Nat.sub_eq_zero_of_le hTBlen, List.drop_zero]
    have hpre : i * 8 = (((tableVals pairs).take i).map be8).flatten.length := by
      rw [flatten_map_be8_length, List.length_take, tableVals_length,
        Nat.min_eq_left (by omega)]
      omega
    rw [hpre, tableBytes, flatten_map_drop be8 (tableVals pairs) i htvlen,
      List.append_assoc]
  have hfd4 : finalData pairs =
      (SHARD_MAGIC ++ headerBytes (finalHeader pairs)) ++
        (objFlat pairs ++ (tableBytes pairs ++
          cmph_dump_bytes (pairs.map Prod.fst))) := by
    simp [finalData, List.append_assoc]
  have hPRE4len : (SHARD_MAGIC ++ headerBytes (finalHeader pairs)).length =
      SHARD_OFFSET_HEADER := by
    simp only [List.length_append, headerBytes_len]
    have h6 : SHARD_MAGIC.length = 6 := rfl
    rw [h6, hOH62]
  have hOFdrop : (objFlat pairs).drop (objFlat (pairs.take i)).length =
      objRec (pairs.get ⟨i, hi⟩) ++ objFlat (pairs.drop (i + 1)) :=
    flatten_map_drop objRec pairs i hi
  have hlenOF := congrArg List.length hOFdrop
  rw [List.length_drop, List.length_append, objRec_length] at hlenOF
  have hdropO : (finalData pairs).drop
      (SHARD_OFFSET_HEADER + (objFlat (pairs.take i)).length) =
      be8 (pairs.get ⟨i, hi⟩).2.length ++
        ((pairs.get ⟨i, hi⟩).2 ++ (objFlat (pairs.drop (i + 1)) ++
          (tableBytes pairs ++ cmph_dump_bytes (pairs.map Prod.fst)))) := by
    rw [hfd4, drop_append_exact_add _ _ _ _ hPRE4len,
      List.drop_append_eq_append_drop, Nat.sub_eq_zero_of_le htake_le,
      List.drop_zero, hOFdrop]
    simp [objRec, List.append_assoc]
  constructor
  · rw [shard_lookup_object_size]
    dsimp only
    rw [List.take_of_length_le (le_of_eq (hk _ (List.get_mem pairs i hi)))]
    have hkey : (pairs.get ⟨i, hi⟩).1 =
        (pairs.map Prod.fst).get ⟨i, by simpa using hi⟩ := by simp
    rw [hkey, cmph_search_get _ hnd i _]
    dsimp only [finalHeader]
    rw [shard_seek, if_pos (by rw [hI]; omega)]
    dsimp only
    rw [shard_read_uint64_t, shard_read, if_pos (by
      dsimp only
      rw [hfl, hkl, hK32]
      omega)]
    dsimp only
    rw [hdropT, take_append_exact _ _ _ (be8_length _),
      beVal_be8 _ (by rw [htv, hOH62]; omega), htv]
    rw [shard_seek, if_pos (by rw [hI, hOH62]; omega)]
    dsimp only
    rw [shard_read_uint64_t, shard_read, if_pos (by
      dsimp only
      rw [hfl, hkl, hK32, hOH62]
      omega)]
    dsimp only
    rw [hdropO, take_append_exact _ _ _ (be8_length _),
      beVal_be8 _ (by
        rw [hfl, hkl, hK32] at hsz
        rw [hI] at hsz
        omega)]
  · rw [shard_lookup_object, shard_read, if_pos (by
      dsimp only
      rw [hfl, hkl, hK32, hOH62]
      omega)]
    dsimp only
    have hdropO8 : (finalData pairs).drop
        (SHARD_OFFSET_HEADER + (objFlat (pairs.take i)).length + 8) =
        (pairs.get ⟨i, hi⟩).2 ++ (objFlat (pairs.drop (i + 1)) ++
          (tableBytes pairs ++ cmph_dump_bytes (pairs.map Prod.fst))) := by
      rw [← List.drop_drop, hdropO]
      exact drop_append_exact _ _ _ (be8_length _)
    rw [hdropO8, take_append_exact _ _ _ rfl]

theorem entriesFrom_search (pairs : List (List Nat × List Nat))
    (hk : ∀ p ∈ pairs, p.1.length = SHARD_KEY_LEN)
    (hnd : (pairs.map Prod.fst).Nodup) :
    ∀ i (hi : i < (entriesFrom SHARD_OFFSET_HEADER pairs).length),
      cmph_search (pairs.map Prod.fst)
        ((entriesFrom SHARD_OFFSET_HEADER pairs).get ⟨i, hi⟩).key = i := by
  intro i hi
  have hip : i < pairs.length := by rwa [entriesFrom_length] at hi
  rw [entriesFrom_get_key pairs SHARD_OFFSET_HEADER i hip,
    List.take_of_length_le (le_of_eq (hk _ (List.get_mem pairs i hip)))]
  have hget : (pairs.get ⟨i, hip⟩).1 =
      (pairs.map Prod.fst).get ⟨i, by simpa using hip⟩ := by
    simp
  rw [hget]
  exact cmph_search_get _ hnd i _

/-- C1: for every finalized shard with distinct keys of width K, writing N
objects, saving, re-loading the file on a fresh handle, and looking up key i
returns first the exact size of object i and then exactly its bytes. -/
theorem c1_roundtrip (pairs : List (List Nat × List Nat))
    (hk : ∀ p ∈ pairs, p.1.length = SHARD_KEY_LEN)
    (hnd : (pairs.map Prod.fst).Nodup)
    (hsz : (finalData pairs).length ≤ INT64_MAX)
    (i : Nat) (hi : i < pairs.length) :
    ∃ sF r r2 r3,
      shard_pipeline pairs = (none, sF) ∧
      shard_load sF.fs.data = Except.ok r ∧
      shard_lookup_object_size r (pairs.get ⟨i, hi⟩).1 =
        Except.ok ((pairs.get ⟨i, hi⟩).2.length, r2) ∧
      shard_lookup_object r2 (pairs.get ⟨i, hi⟩).2.length =
        Except.ok ((pairs.get ⟨i, hi⟩).2, r3) := by
  have h1 := shard_pipeline_spec pairs hk hnd
  have h2 := load_spec pairs hk hsz
  have h3 := lookup_spec pairs hk hnd hsz i hi
    (SHARD_OFFSET_HEADER + (objFlat pairs).length + pairs.length * 8 + 8 +
      pairs.length * SHARD_KEY_LEN)
  exact ⟨_, _, _, _, h1, h2, h3.1, h3.2⟩

/-- C1 witness: scenario S1, a one-object shard holding the bytes of the
word hello under the all-zeros 32-byte key. -/
theorem c1_roundtrip_witness :
    ∃ sF r r2 r3,
      shard_pipeline [(List.replicate 32 0, [104, 101, 108, 108, 111])] =
        (none, sF) ∧
      shard_load sF.fs.data = Except.ok r ∧
      shard_lookup_object_size r
        (([(List.replicate 32 0, [104, 101, 108, 108, 111])].get
          ⟨0, by decide⟩).1) =
        Except.ok
          ((([(List.replicate 32 0, [104, 101, 108, 108, 111])].get
            ⟨0, by decide⟩).2).length, r2) ∧
      shard_lookup_object r2
        ((([(List.replicate 32 0, [104, 101, 108, 108, 111])].get
          ⟨0, by decide⟩).2).length) =
        Except.ok
          ((([(List.replicate 32 0, [104, 101, 108, 108, 111])].get
            ⟨0, by decide⟩).2), r3) :=
  c1_roundtrip [(List.replicate 32 0, [104, 101, 108, 108, 111])]
    (by decide) (by decide) (by decide) 0 (by decide)

/-- C2: on every successfully finalized shard the header satisfies
index_size = objects_count * 8, the model MPHF maps the staged key set
bijectively onto the range [0, objects_count), and the offset table built by
shard_index_save has exactly objects_count slots, slot search(key i) holding
the staged offset of object i. -/
theorem c2_index_invariants (pairs : List (List Nat × List Nat))
    (hk : ∀ p ∈ pairs, p.1.length = SHARD_KEY_LEN)
    (hnd : (pairs.map Prod.fst).Nodup) :
    (shard_pipeline pairs).1 = none ∧
    (shard_pipeline pairs).2.header.index_size =
      (shard_pipeline pairs).2.header.objects_count * 8 ∧
    (pairs.map Prod.fst).map (cmph_search (pairs.map Prod.fst)) =
      List.range pairs.length ∧
    buildTable (pairs.map Prod.fst) (entriesFrom SHARD_OFFSET_HEADER pairs)
        pairs.length =
      (entriesFrom SHARD_OFFSET_HEADER pairs).map shard_index_t.object_offset ∧
    (buildTable (pairs.map Prod.fst) (entriesFrom SHARD_OFFSET_HEADER pairs)
        pairs.length).length = pairs.length := by
  have htable := buildTable_spec (pairs.map Prod.fst)
    (entriesFrom SHARD_OFFSET_HEADER pairs) pairs.length
    (entriesFrom_length _ _) (entriesFrom_search pairs hk hnd)
  refine ⟨?_, ?_, ?_, htable, ?_⟩
  · rw [shard_pipeline_spec pairs hk hnd]
  · rw [shard_pipeline_spec pairs hk hnd]
    dsimp only [finalHeader]
  · have := cmph_search_bijection (pairs.map Prod.fst) hnd
    rwa [List.length_map] at this
  · rw [htable, List.length_map, entriesFrom_length]

/-- C2 witness: a two-object shard with distinct constant keys. -/
theorem c2_index_invariants_witness :
    (shard_pipeline [(List.replicate 32 1, [97]),
        (List.replicate 32 2, [98, 99])]).1 = none ∧
    (shard_pipeline [(List.replicate 32 1, [97]),
        (List.replicate 32 2, [98, 99])]).2.header.index_size =
      (shard_pipeline [(List.replicate 32 1, [97]),
        (List.replicate 32 2, [98, 99])]).2.header.objects_count * 8 ∧
    ([(List.replicate 32 1, [97]), (List.replicate 32 2, [98, 99])].map
        Prod.fst).map
      (cmph_search ([(List.replicate 32 1, [97]),
        (List.replicate 32 2, [98, 99])].map Prod.fst)) =
      List.range [(List.replicate 32 1, [97]),
        (List.replicate 32 2, [98, 99])].length ∧
    buildTable ([(List.replicate 32 1, [97]),
        (List.replicate 32 2, [98, 99])].map Prod.fst)
        (entriesFrom SHARD_OFFSET_HEADER [(List.replicate 32 1, [97]),
          (List.replicate 32 2, [98, 99])])
        [(List.replicate 32 1, [97]), (List.replicate 32 2, [98, 99])].length =
      (entriesFrom SHARD_OFFSET_HEADER [(List.replicate 32 1, [97]),
        (List.replicate 32 2, [98, 99])]).map shard_index_t.object_offset ∧
    (buildTable ([(List.replicate 32 1, [97]),
        (List.replicate 32 2, [98, 99])].map Prod.fst)
        (entriesFrom SHARD_OFFSET_HEADER [(List.replicate 32 1, [97]),
          (List.replicate 32 2, [98, 99])])
        [(List.replicate 32 1, [97]),
          (List.replicate 32 2, [98, 99])].length).length =
      [(List.replicate 32 1, [97]), (List.replicate 32 2, [98, 99])].length :=
  c2_index_invariants [(List.replicate 32 1, [97]),
    (List.replicate 32 2, [98, 99])] (by decide) (by decide)

theorem objFlat_take_succ (pairs : List (List Nat × List Nat)) (i : Nat)
    (hi : i < pairs.length) :
    (objFlat (pairs.take (i + 1))).length =
      (objFlat (pairs.take i)).length + (8 + (pairs.get ⟨i, hi⟩).2.length) := by
  rw [List.take_succ, List.getElem?_eq_getElem hi]
  simp only [Option.toList_some, objFlat_append, List.length_append]
  simp [objFlat, objRec, be8_length, List.get_eq_getElem]

/-- C9: within one writer the staged object offsets are strictly increasing;
the offset of write i+1 is the offset of write i plus 8 plus the size of
object i, for any sequence of at most objects_count writes after create. -/
theorem c9_offsets_increasing (pairs : List (List Nat × List Nat)) (n : Nat)
    (hn : pairs.length ≤ n) (i : Nat) (hi : i + 1 < pairs.length) :
    ((writeAll (shard_create n []) pairs).index.getD (i + 1)
        { key := [], object_offset := 0 }).object_offset =
      ((writeAll (shard_create n []) pairs).index.getD i
        { key := [], object_offset := 0 }).object_offset + 8 +
        ((pairs.getD i ([], [])).2).length ∧
    ((writeAll (shard_create n []) pairs).index.getD i
        { key := [], object_offset := 0 }).object_offset <
      ((writeAll (shard_create n []) pairs).index.getD (i + 1)
        { key := [], object_offset := 0 }).object_offset := by
  rw [writeAll_spec pairs _ rfl]
  dsimp only [shard_create]
  rw [List.nil_append]
  have hi0 : i < pairs.length := by omega
  have hlen1 : i + 1 < (entriesFrom SHARD_OFFSET_HEADER pairs).length := by
    rw [entriesFrom_length]; exact hi
  have hlen0 : i < (entriesFrom SHARD_OFFSET_HEADER pairs).length := by
    rw [entriesFrom_length]; omega
  rw [List.getD_eq_get _ _ hlen1, List.getD_eq_get _ _ hlen0,
    entriesFrom_get_offset pairs SHARD_OFFSET_HEADER (i + 1) hi,
    entriesFrom_get_offset pairs SHARD_OFFSET_HEADER i hi0,
    objFlat_take_succ pairs i hi0]
  have hd : pairs.getD i ([], []) = pairs.get ⟨i, hi0⟩ :=
    List.getD_eq_get _ _ hi0
  rw [hd]
  omega

/-- C9 witness: two writes of one- and two-byte objects into a shard created
for three objects. -/
theorem c9_offsets_increasing_witness :
    ((writeAll (shard_create 3 []) [(List.replicate 32 1, [97]),
        (List.replicate 32 2, [98, 99])]).index.getD 1
        { key := [], object_offset := 0 }).object_offset =
      ((writeAll (shard_create 3 []) [(List.replicate 32 1, [97]),
          (List.replicate 32 2, [98, 99])]).index.getD 0
          { key := [], object_offset := 0 }).object_offset + 8 +
        (([(List.replicate 32 1, [97]),
          (List.replicate 32 2, [98, 99])].getD 0 ([], [])).2).length ∧
    ((writeAll (shard_create 3 []) [(List.replicate 32 1, [97]),
        (List.replicate 32 2, [98, 99])]).index.getD 0
        { key := [], object_offset := 0 }).object_offset <
      ((writeAll (shard_create 3 []) [(List.replicate 32 1, [97]),
          (List.replicate 32 2, [98, 99])]).index.getD 1
          { key := [], object_offset := 0 }).object_offset :=
  c9_offsets_increasing [(List.replicate 32 1, [97]),
    (List.replicate 32 2, [98, 99])] 3 (by decide) 0 (by decide)

theorem ioPass_go (fs0 : FS) (hd : shard_header_t)
    (ix : List shard_index_t) (hs : Option (List (List Nat))) :
    ∀ (m c : Nat),
    ioPass { fs := fs0, header := hd, index := ix, index_offset := c,
             hash := hs } m =
      ((List.range m).map (fun j =>
        ((ix.getD (c + j) { key := [], object_offset := 0 }).key,
          SHARD_KEY_LEN,
          if c + j + 1 ≥ hd.objects_count then (-1 : Int) else 0)),
        { fs := fs0, header := hd, index := ix, index_offset := c + m,
          hash := hs }) := by
  intro m
  induction m with
  | zero => intro c; simp [ioPass]
  | succ m ih =>
    intro c
    rw [ioPass, io_read]
    dsimp only
    rw [ih (c + 1)]
    rw [List.range_succ_eq_map]
    simp only [List.map_cons, List.map_map, Prod.mk.injEq, List.cons.injEq]
    refine ⟨⟨?_, ?_⟩, ?_⟩
    · simp
    · apply List.map_congr_left
      intro j hj
      simp only [Function.comp_apply]
      rw [show c + 1 + j = c + Nat.succ j from by omega]
    · rw [show c + 1 + m = c + (m + 1) from by omega]

theorem range_map_getD_key (ix : List shard_index_t) :
    (List.range ix.length).map
      (fun j => (ix.getD j { key := [], object_offset := 0 }).key) =
      ix.map shard_index_t.key := by
  apply List.ext_get (by simp)
  intro j h1 h2
  simp only [List.get_map, List.get_range]
  rw [List.getD_eq_get _ _ (by simpa using h2)]

/-- C8: the MPHF key-stream adapter is a restartable stream: io_rewind sets
the cursor to 0; the j-th io_read of a full pass returns the key of staged
entry j with key width SHARD_KEY_LEN and advances the cursor, returning the
end-of-stream mark -1 exactly on the read that brings the cursor to
objects_count and 0 before; the full pass hands out each of the
objects_count staged keys exactly once, in order. -/
theorem c8_io_adapter_stream (s : shard_t) (n : Nat)
    (h1 : s.index.length = n) (h2 : s.header.objects_count = n) :
    (io_rewind s).index_offset = 0 ∧
    ioPass (io_rewind s) n =
      ((List.range n).map (fun j =>
        ((s.index.getD j { key := [], object_offset := 0 }).key,
          SHARD_KEY_LEN, if j + 1 ≥ n then (-1 : Int) else 0)),
        { s with index_offset := n }) ∧
    (List.range n).map (fun j =>
        (s.index.getD j { key := [], object_offset := 0 }).key) =
      s.index.map shard_index_t.key := by
  obtain ⟨fs0, hd, ix, c, hs⟩ := s
  dsimp only at h1 h2
  refine ⟨rfl, ?_, ?_⟩
  · rw [io_rewind]
    dsimp only
    rw [ioPass_go fs0 hd ix hs n 0]
    simp only [Nat.zero_add, h2]
  · rw [← h1]
    exact range_map_getD_key ix

/-- C8 witness: a two-entry staged index streamed in one full pass. -/
theorem c8_io_adapter_stream_witness :
    (io_rewind ⟨⟨[], 0, []⟩, ⟨1, 2, 62, 0, 0, 0, 0⟩,
      [⟨List.replicate 32 1, 62⟩, ⟨List.replicate 32 2, 71⟩], 2,
      none⟩).index_offset = 0 ∧
    ioPass (io_rewind ⟨⟨[], 0, []⟩, ⟨1, 2, 62, 0, 0, 0, 0⟩,
      [⟨List.replicate 32 1, 62⟩, ⟨List.replicate 32 2, 71⟩], 2, none⟩) 2 =
      ((List.range 2).map (fun j =>
        (([(⟨List.replicate 32 1, 62⟩ : shard_index_t),
            ⟨List.replicate 32 2, 71⟩].getD j ⟨[], 0⟩).key,
          SHARD_KEY_LEN, if j + 1 ≥ 2 then (-1 : Int) else 0)),
        ⟨⟨[], 0, []⟩, ⟨1, 2, 62, 0, 0, 0, 0⟩,
          [⟨List.replicate 32 1, 62⟩, ⟨List.replicate 32 2, 71⟩], 2, none⟩) ∧
    (List.range 2).map (fun j =>
        ([(⟨List.replicate 32 1, 62⟩ : shard_index_t),
          ⟨List.replicate 32 2, 71⟩].getD j ⟨[], 0⟩).key) =
      [(⟨List.replicate 32 1, 62⟩ : shard_index_t),
        ⟨List.replicate 32 2, 71⟩].map shard_index_t.key :=
  c8_io_adapter_stream ⟨⟨[], 0, []⟩, ⟨1, 2, 62, 0, 0, 0, 0⟩,
    [⟨List.replicate 32 1, 62⟩, ⟨List.replicate 32 2, 71⟩], 2, none⟩ 2
    (by decide) (by decide)

theorem writeAt_drop (d : List Nat) (p : Nat) (b : List Nat) (hb : b ≠ []) :
    (writeAt d p b).drop p = b ++ (padTo d p).drop (p + b.length) := by
  rw [writeAt]
  simp only [List.isEmpty_iff, hb, if_false]
  have htk : ((padTo d p).take p).length = p := by
    rw [List.length_take, padTo_length]
    omega
  rw [List.append_assoc]
  exact drop_append_exact _ _ _ htk

theorem writeAt_length_ge (d : List Nat) (p : Nat) (b : List Nat)
    (hb : b ≠ []) : p + b.length ≤ (writeAt d p b).length := by
  rw [writeAt]
  simp only [List.isEmpty_iff, hb, if_false]
  have htk : ((padTo d p).take p).length = p := by
    rw [List.length_take, padTo_length]
    omega
  simp [htk]

/-- C6: re-reading the header written by shard_header_save on a fresh handle
yields exactly the same seven fields: header load after header save is the
identity, the fields being stored as 7 consecutive big-endian u64 at the
magic offset. -/
theorem c6_header_roundtrip (s : shard_t)
    (hv : s.header.version = SHARD_VERSION)
    (hb : ∀ v ∈ headerFields s.header, v < 2 ^ 64)
    (hw : s.fs.wOk = []) :
    ∃ s2 f3,
      shard_header_save s = (none, s2) ∧
      shard_header_load { data := s2.fs.data, pos := 0, wOk := [] } =
        Except.ok (s.header, f3) := by
  have hne : ((headerFields s.header).map be8).flatten ≠ [] := by
    have := headerBytes_length s.header
    intro hcon
    rw [hcon] at this
    simp at this
  have hload : shard_header_load
      { data := writeAt s.fs.data SHARD_OFFSET_MAGIC
          ((headerFields s.header).map be8).flatten,
        pos := 0, wOk := [] } =
      Except.ok (s.header,
        { data := writeAt s.fs.data SHARD_OFFSET_MAGIC
            ((headerFields s.header).map be8).flatten,
          pos := SHARD_OFFSET_MAGIC + 8 * 7, wOk := [] }) := by
    rw [shard_header_load, shard_seek, if_pos (by decide)]
    dsimp only
    have hd : ((writeAt s.fs.data SHARD_OFFSET_MAGIC
        ((headerFields s.header).map be8).flatten).drop SHARD_OFFSET_MAGIC) =
        ((headerFields s.header).map be8).flatten ++
          (padTo s.fs.data SHARD_OFFSET_MAGIC).drop
            (SHARD_OFFSET_MAGIC +
              ((headerFields s.header).map be8).flatten.length) :=
      writeAt_drop _ _ _ hne
    have hple : SHARD_OFFSET_MAGIC ≤ (writeAt s.fs.data SHARD_OFFSET_MAGIC
        ((headerFields s.header).map be8).flatten).length := by
      have := writeAt_length_ge s.fs.data SHARD_OFFSET_MAGIC
        ((headerFields s.header).map be8).flatten hne
      omega
    have hread := readU64s_spec (headerFields s.header)
      { data := writeAt s.fs.data SHARD_OFFSET_MAGIC
          ((headerFields s.header).map be8).flatten,
        pos := SHARD_OFFSET_MAGIC, wOk := [] } _ hd hple hb
    have h7len : (headerFields s.header).length = 7 := rfl
    rw [h7len] at hread
    rw [hread]
    dsimp only [headerFields]
    rw [if_pos hv]
  rw [shard_header_save, shard_seek, if_pos (by decide)]
  dsimp only
  rw [writeFields_spec (headerFields s.header)
    { data := s.fs.data, pos := SHARD_OFFSET_MAGIC, wOk := s.fs.wOk } hw]
  dsimp only
  exact ⟨_, _, rfl, hload⟩

/-- C6 witness: a concrete header with seven distinct field values. -/
theorem c6_header_roundtrip_witness :
    ∃ s2 f3,
      shard_header_save ⟨⟨[], 0, []⟩, ⟨1, 2, 3, 4, 5, 6, 7⟩, [], 0, none⟩ =
        (none, s2) ∧
      shard_header_load { data := s2.fs.data, pos := 0, wOk := [] } =
        Except.ok ((⟨1, 2, 3, 4, 5, 6, 7⟩ : shard_header_t), f3) :=
  c6_header_roundtrip ⟨⟨[], 0, []⟩, ⟨1, 2, 3, 4, 5, 6, 7⟩, [], 0, none⟩
    (by decide) (by decide) rfl

/-- C7: for every file of at least magic length whose bytes at offset 0
differ from the magic constant in at least one position, shard_load fails
during magic validation with BadMagic, before the header or the MPHF blob
are touched. -/
theorem c7_bad_magic (data : List Nat)
    (hlen : SHARD_MAGIC.length ≤ data.length)
    (hdiff : data.take SHARD_MAGIC.length ≠ SHARD_MAGIC) :
    shard_load data = Except.error Err.badMagic := by
  rw [shard_load, shard_magic_load, shard_seek, if_pos (by decide)]
  dsimp only
  rw [shard_read, if_pos (by dsimp only; omega)]
  dsimp only
  rw [List.drop_zero, if_neg hdiff]

/-- C7 witness: a sealed one-object shard with its first magic byte
flipped. -/
theorem c7_bad_magic_witness :
    shard_load (0 :: (finalData [(List.replicate 32 0, [104])]).drop 1) =
      Except.error Err.badMagic :=
  c7_bad_magic _ (by decide) (by decide)

/-- C3 (code evaluation at the failing input of scenario S5): writing the
same key twice and saving does not return a clean MphfBuildFailed error;
cmph_new fails on the duplicate key stream and returns NULL, but
shard_hash_create ignores that result and returns 0, so shard_index_save
goes on to call cmph_size on the NULL handle: a null-pointer dereference
(a crash, modelled by the nullDeref outcome) instead of an error return. -/
theorem c3_duplicate_key_crash :
    cmph_new (adapterKeys (writeAll (shard_create 2 [])
        [(List.replicate 32 7, [97]), (List.replicate 32 7, [98])])) = none ∧
    (shard_hash_create (writeAll (shard_create 2 [])
        [(List.replicate 32 7, [97]), (List.replicate 32 7, [98])])).1 = true ∧
    (shard_save (writeAll (shard_create 2 [])
        [(List.replicate 32 7, [97]), (List.replicate 32 7, [98])])).1 =
      some Err.nullDeref := by
  refine ⟨by decide, rfl, by decide⟩

/-- C4 (code evaluation at the failing input): shard_object_write performs
no capacity check, so the second write into a shard created for one object
still returns success and advances the staging cursor to 2 past the
declared objects_count of 1 (in C this writes past the end of the
malloc'ed index array). -/
theorem c4_overflow_unchecked :
    (shard_object_write (shard_create 1 []) (List.replicate 32 0) [97]).1 =
      true ∧
    (shard_object_write (shard_object_write (shard_create 1 [])
        (List.replicate 32 0) [97]).2 (List.replicate 32 1) [98]).1 = true ∧
    (shard_object_write (shard_object_write (shard_create 1 [])
        (List.replicate 32 0) [97]).2 (List.replicate 32 1) [98]).2.index_offset = 2 ∧
    (shard_object_write (shard_object_write (shard_create 1 [])
        (List.replicate 32 0) [97]).2 (List.replicate 32 1)
        [98]).2.header.objects_count = 1 := by
  refine ⟨by decide, by decide, by decide, by decide⟩

/-- C10: destroying a handle that was only initialized succeeds:
shard_close returns 0 because no file is open, and shard_destroy releases
only the path (the one resource shard_init acquired) and returns 0. -/
theorem c10_init_destroy (path : List Nat) :
    shard_close (shard_init path) = 0 ∧
    shard_destroy (shard_init path) = ([Res.path], 0) := by
  exact ⟨rfl, rfl⟩

theorem no_magic_writeAt (d : List Nat) (p : Nat) (b : List Nat)
    (hp : SHARD_OFFSET_MAGIC ≤ p) (h : no_magic d) :
    no_magic (writeAt d p b) := by
  cases b with
  | nil => simpa [writeAt] using h
  | cons x t =>
    rw [writeAt]
    simp only [List.isEmpty_cons, if_false, Bool.false_eq_true]
    set P := padTo d p with hP
    have hPlen : p ≤ P.length := by rw [hP, padTo_length]; omega
    have htk : ((P.take p).length) = p := by simp; omega
    right
    constructor
    · simp only [List.length_append, htk]
      omega
    · have h6p : SHARD_OFFSET_MAGIC ≤ p := hp
      have htake6 : ((P.take p ++ (x :: t) ++
          P.drop (p + (x :: t).length)).take SHARD_OFFSET_MAGIC) =
          P.take SHARD_OFFSET_MAGIC := by
        rw [List.append_assoc, List.take_append_eq_append_take,
          Nat.sub_eq_zero_of_le (by omega), List.take_zero, List.append_nil,
          List.take_take, Nat.min_eq_left h6p]
      rw [htake6]
      rcases h with rfl | ⟨hlen, hne⟩
      · rw [hP, padTo]
        simp only [List.nil_append, List.length_nil, Nat.sub_zero,
          List.take_replicate]
        rw [Nat.min_eq_left hp]
        decide
      · rw [hP, padTo, List.take_append_eq_append_take,
          Nat.sub_eq_zero_of_le hlen, List.take_zero, List.append_nil]
        exact hne

theorem shard_write_inv (f : FS) (b : List Nat) (h : saveInv f) :
    saveInv (shard_write f b).2 := by
  obtain ⟨hnm, hpos⟩ := h
  rw [shard_write]
  cases b with
  | nil => exact ⟨hnm, hpos⟩
  | cons x t =>
    simp only [List.isEmpty_cons, if_false, Bool.false_eq_true]
    cases hw : f.wOk with
    | nil =>
      show no_magic (writeAt f.data f.pos (x :: t)) ∧
        SHARD_OFFSET_MAGIC ≤ f.pos + (x :: t).length
      exact ⟨no_magic_writeAt _ _ _ hpos hnm, by omega⟩
    | cons ok rest =>
      cases ok with
      | true =>
        show no_magic (writeAt f.data f.pos (x :: t)) ∧
          SHARD_OFFSET_MAGIC ≤ f.pos + (x :: t).length
        exact ⟨no_magic_writeAt _ _ _ hpos hnm, by omega⟩
      | false =>
        show no_magic f.data ∧ SHARD_OFFSET_MAGIC ≤ f.pos
        exact ⟨hnm, hpos⟩

theorem writeFields_inv (vs : List Nat) : ∀ (f : FS), saveInv f →
    saveInv (writeFields f vs).2 := by
  induction vs with
  | nil => intro f h; exact h
  | cons v rest ih =>
    intro f h
    rw [writeFields]
    rcases hw : shard_write f (be8 v) with ⟨ok, f1⟩
    have hinv1 : saveInv f1 := by
      have := shard_write_inv f (be8 v) h
      rwa [hw] at this
    cases ok with
    | true => exact ih f1 hinv1
    | false => exact hinv1

theorem shard_write_inv2 (f : FS) (b : List Nat) (ok : Bool) (f1 : FS)
    (hww : shard_write f b = (ok, f1)) (h : saveInv f) : saveInv f1 := by
  have := shard_write_inv f b h
  rw [hww] at this
  exact this

theorem shard_index_save_inv (s : shard_t) (h : saveInv s.fs) :
    saveInv (shard_index_save s).2.fs := by
  rw [shard_index_save]
  split
  · exact h
  · split
    · exact h
    · dsimp only
      split
      all_goals rename_i f1 heq
      all_goals exact shard_write_inv2 _ _ _ _ heq h

theorem shard_hash_save_inv (s : shard_t) (h : saveInv s.fs) :
    saveInv (shard_hash_save s).2.fs := by
  rw [shard_hash_save]
  split
  · exact h
  · rename_i hash heq
    exact shard_write_inv s.fs (cmph_dump_bytes hash) h

theorem shard_header_save_inv (s : shard_t) (h : saveInv s.fs) :
    saveInv (shard_header_save s).2.fs := by
  rw [shard_header_save, shard_seek, if_pos (by decide)]
  dsimp only
  have hseek : saveInv
      { data := s.fs.data, pos := SHARD_OFFSET_MAGIC, wOk := s.fs.wOk } :=
    ⟨h.1, by dsimp only; omega⟩
  have hres := writeFields_inv (headerFields s.header) _ hseek
  rcases hww : writeFields
    { data := s.fs.data, pos := SHARD_OFFSET_MAGIC, wOk := s.fs.wOk }
    (headerFields s.header) with ⟨e, f1⟩
  rw [hww] at hres
  exact hres

theorem shard_magic_save_fail (f : FS) (h : saveInv f) (e : Err) (f1 : FS)
    (hfail : shard_magic_save f = (some e, f1)) : no_magic f1.data := by
  rw [shard_magic_save, shard_seek, if_pos (by decide)] at hfail
  dsimp only at hfail
  rcases hww : shard_write { data := f.data, pos := 0, wOk := f.wOk }
    SHARD_MAGIC with ⟨ok, f2⟩
  rw [hww] at hfail
  cases ok with
  | true => simp at hfail
  | false =>
    have hunch : f2.data = f.data := by
      have hmg : SHARD_MAGIC = 83 :: [72, 65, 82, 68, 0] := rfl
      rw [shard_write, hmg] at hww
      simp only [List.isEmpty_cons, if_false, Bool.false_eq_true] at hww
      rcases hwo : ({ data := f.data, pos := 0, wOk := f.wOk } : FS).wOk with
        _ | ⟨okk, rest⟩
      · rw [hwo] at hww
        simp at hww
      · rw [hwo] at hww
        cases okk with
        | true => simp at hww
        | false =>
          simp only [Bool.false_eq_true, if_false] at hww
          have hsnd := congrArg Prod.snd hww
          dsimp only at hsnd
          rw [← hsnd]
    rw [Prod.mk.injEq] at hfail
    rw [← hfail.2, hunch]
    exact h.1

theorem no_magic_load_fails (d : List Nat) (h : no_magic d) :
    ∃ e, shard_magic_load { data := d, pos := 0, wOk := [] } =
      Except.error e := by
  rw [shard_magic_load, shard_seek, if_pos (by decide)]
  dsimp only
  rw [shard_read]
  rcases h with rfl | ⟨hlen, hne⟩
  · rw [if_neg (by decide)]
    exact ⟨Err.ioError, rfl⟩
  · have hom : SHARD_MAGIC.length = SHARD_OFFSET_MAGIC := rfl
    rw [if_pos (by dsimp only; rw [hom]; omega)]
    dsimp only
    rw [List.drop_zero, hom, if_neg hne]
    exact ⟨Err.badMagic, rfl⟩

theorem shard_index_save_inv2 (s s' : shard_t) (eo : Option Err)
    (heq : shard_index_save s = (eo, s')) (h : saveInv s.fs) :
    saveInv s'.fs := by
  have hres := shard_index_save_inv s h
  rw [heq] at hres
  exact hres

theorem shard_hash_save_inv2 (s s' : shard_t) (eo : Option Err)
    (heq : shard_hash_save s = (eo, s')) (h : saveInv s.fs) :
    saveInv s'.fs := by
  have hres := shard_hash_save_inv s h
  rw [heq] at hres
  exact hres

theorem shard_header_save_inv2 (s s' : shard_t) (eo : Option Err)
    (heq : shard_header_save s = (eo, s')) (h : saveInv s.fs) :
    saveInv s'.fs := by
  have hres := shard_header_save_inv s h
  rw [heq] at hres
  exact hres

/-- Whenever shard_save returns an error, the file is left without a valid
magic at offset 0 and shard_magic_load rejects it.  (This covers the steps
whose failure the C code detects; the MPHF dump step is not among them,
see the C5 theorem below.) -/
theorem save_error_no_magic (s : shard_t)
    (hnm : no_magic s.fs.data) (hpos : SHARD_OFFSET_MAGIC ≤ s.fs.pos) :
    ∀ e s2, shard_save s = (some e, s2) →
      no_magic s2.fs.data ∧
      ∃ e2, shard_magic_load { data := s2.fs.data, pos := 0, wOk := [] } =
        Except.error e2 := by
  intro e s2 hsave
  suffices hnm2 : no_magic s2.fs.data by
    exact ⟨hnm2, no_magic_load_fails _ hnm2⟩
  rw [shard_save, shard_hash_create] at hsave
  dsimp only at hsave
  split at hsave
  case _ e' s2' heq =>
    rw [Prod.mk.injEq] at hsave
    have hinv := shard_index_save_inv2 _ _ _ heq ⟨hnm, hpos⟩
    rw [← hsave.2]
    exact hinv.1
  case _ s2' heq =>
    have hinv1 := shard_index_save_inv2 _ _ _ heq ⟨hnm, hpos⟩
    split at hsave
    case _ e' s3' heq2 =>
      rw [Prod.mk.injEq] at hsave
      have hinv := shard_hash_save_inv2 _ _ _ heq2 hinv1
      rw [← hsave.2]
      exact hinv.1
    case _ s3' heq2 =>
      have hinv2 := shard_hash_save_inv2 _ _ _ heq2 hinv1
      split at hsave
      case _ e' s4' heq3 =>
        rw [Prod.mk.injEq] at hsave
        have hinv := shard_header_save_inv2 _ _ _ heq3 hinv2
        rw [← hsave.2]
        exact hinv.1
      case _ s4' heq3 =>
        have hinv3 := shard_header_save_inv2 _ _ _ heq3 hinv2
        split at hsave
        case _ e' f5 heq4 =>
          rw [Prod.mk.injEq] at hsave
          rw [← hsave.2]
          exact shard_magic_save_fail _ hinv3 _ _ heq4
        case _ f5 heq4 =>
          simp at hsave

set_option maxRecDepth 100000 in
/-- C5 (code evaluation at the failing input): shard_save does not abort
when the MPHF dump step fails.  With a write oracle whose fourth entry
fails the write (the first three cover the size prefix, the object bytes
and the offset table; the fourth is the cmph blob dump, whose result the C
code discards), shard_save still returns success, the magic is written and
validates, and the sealed file is missing its MPHF blob, so a subsequent
shard_load fails — contradicting the claim that each failing step aborts
the sequence and that the magic is never written unless every earlier step
succeeded. -/
theorem c5_dump_failure_not_aborted :
    (shard_save (writeAll (shard_create 1 [true, true, true, false])
        [(List.replicate 32 0, [104])])).1 = none ∧
    shard_magic_load
        { data := (shard_save (writeAll
            (shard_create 1 [true, true, true, false])
            [(List.replicate 32 0, [104])])).2.fs.data,
          pos := 0, wOk := [] } =
      Except.ok
        { data := (shard_save (writeAll
            (shard_create 1 [true, true, true, false])
            [(List.replicate 32 0, [104])])).2.fs.data,
          pos := SHARD_MAGIC.length, wOk := [] } ∧
    shard_load (shard_save (writeAll
        (shard_create 1 [true, true, true, false])
        [(List.replicate 32 0, [104])])).2.fs.data =
      Except.error Err.ioError := by
  refine ⟨by decide, rfl, rfl⟩
